import Mathlib

/-!
Verification of the Economic_Network simulation engine.

This file gives a shallow embedding, over exact rationals, of the
`EconomyNetwork` class from `src/src/sim.py` (the full engine: bounded
history, overrides, discount factors, anomaly detection), and of the
control flow of `detect_anomaly` from `src/src/anomaly_detection.py`.

The statistical decomposition `statsmodels.tsa.seasonal.seasonal_decompose`
is an external library and is not part of this repository; it is kept
abstract as a parameter `decomp : List Q -> Nat -> List (Option Q)` giving
the residual at each position of the series (`none` models a NaN residual
removed by `dropna`).  Everything else is translated line for line from
the Python source.
-/

deriving instance DecidableEq for Except

/-- One simulation state, mirroring the per-tick state dict built in
`EconomyNetwork.__init__` and `EconomyNetwork.step`. -/
structure EconState where
  beta : ℚ
  delta : ℚ
  alpha : ℚ
  rho : ℚ
  outliersAlpha : List Bool
  outliersRho : List Bool
  savings_households : ℚ
  savings_firms : ℚ
  consumption : ℚ
  wages : ℚ
deriving DecidableEq

/-- Default state used only to totalise `history[-1]`; every theorem keeps
the history non-empty, as the engine does. -/
def dfltState : EconState := ⟨0, 0, 0, 0, [], [], 0, 0, 0, 0⟩

/-- The engine: `sens`, `mem_input`, `t` and the bounded-deque history,
newest state last, as in `EconomyNetwork`. -/
structure EconomyNetwork where
  sens : ℚ
  mem_input : ℕ
  t : ℕ
  history : List EconState
deriving DecidableEq

/-- Construction-time validation failure (`ValueError` in the source;
`InvalidParameter` in the specification's taxonomy). -/
inductive InitError where
  | invalidParameter (msg : String)
deriving DecidableEq

/-- Failures of the anomaly detector (`ValueError` in the source;
`EmptyInput` / `InsufficientData` in the specification's taxonomy). -/
inductive DetectError where
  | emptyInput
  | insufficientData
deriving DecidableEq

/-- Mirrors `EconomyNetwork.__init__`: validates `sens`, `mem_input` and the two
propensities, then seeds a one-element history. -/
def EconomyNetwork.init (sens : ℚ) (mem_input : ℕ) (discounts prop savings : ℚ × ℚ)
    (consumption_init wages_init : ℚ) : Except InitError EconomyNetwork :=
  if sens ≤ 0 then
    Except.error (InitError.invalidParameter "Parameter sens (sensitivity) must be a positive number.")
  else if mem_input < 2 then
    Except.error (InitError.invalidParameter "Parameter mem_input (memory size) must be at least 2.")
  else if ¬ (0 ≤ prop.1 ∧ prop.1 ≤ 1 ∧ 0 ≤ prop.2 ∧ prop.2 ≤ 1) then
    Except.error (InitError.invalidParameter "Parameters alpha and rho must be in the range [0, 1].")
  else
    Except.ok ⟨sens, mem_input, 0,
      [⟨discounts.1, discounts.2, prop.1, prop.2, [false], [false],
        savings.1, savings.2, consumption_init, wages_init⟩]⟩

/-- Append on a `deque(maxlen := m)`: add at the right, evict from the left
once the length would exceed `m`. -/
def appendBounded {α : Type} (maxlen : ℕ) (xs : List α) (x : α) : List α :=
  (xs ++ [x]).drop (xs.length + 1 - maxlen)

/-- Python slice `l[-k:]` for `k > 0`: the trailing `k` elements. -/
def takeLast {α : Type} (k : ℕ) (xs : List α) : List α :=
  xs.drop (xs.length - k)

/-- Mirrors `EconomyNetwork.get_values`, with the string key replaced by a field
selector. -/
def EconomyNetwork.get_values (net : EconomyNetwork) (f : EconState → ℚ) : List ℚ :=
  net.history.map f

/-- Latest state `history[-1]`. -/
def EconomyNetwork.latest (net : EconomyNetwork) : EconState :=
  net.history.getLastD dfltState

/-- The `try` block of `EconomyNetwork.step`: the household/firm factor
equations for wages and consumption.  Returns `none` exactly when the
Python code would hit a `ZeroDivisionError` (alpha or rho zero, a discount
factor equal to 1, or a vanishing base raised to the power -1). -/
def equilibriumFlows (prev : EconState) (alpha rho : ℚ) : Option (ℚ × ℚ) :=
  if alpha = 0 ∨ rho = 0 ∨ prev.beta = 1 ∨ prev.delta = 1 then none
  else
    let household_factor := (1 / alpha - 1) / (1 - prev.beta)
    let firm_factor := (1 / rho - 1) / (1 - prev.delta)
    if (1 + household_factor) * (1 + firm_factor) - 1 = 0 ∨
        1 + firm_factor = 0 ∨ 1 + household_factor = 0 then none
    else
      let wages := ((1 + household_factor) * (1 + firm_factor) - 1)⁻¹ *
          ((1 + firm_factor)⁻¹ * prev.savings_firms + prev.savings_households) +
          (1 + firm_factor)⁻¹ * prev.savings_firms
      let consumption := (1 + household_factor)⁻¹ * (wages + prev.savings_households)
      some (wages, consumption)

/-- Resolution of the next value of a propensity in `step`: the override
verbatim when given, otherwise the previous value plus the random draw `u`,
clamped to [0.01, 0.99]. -/
def resolveProp (prevVal u : ℚ) (ov : Option ℚ) : ℚ :=
  ov.getD (max (1/100) (min (99/100) (prevVal + u)))

/-- The new state built by `step` from the previous state, the resolved
propensities and the outlier-flag lists; wages and consumption fall back to
the previous tick's values on a degenerate divisor. -/
def nextEconState (prev : EconState) (alpha rho : ℚ) (oa ob : List Bool) : EconState :=
  let flows := (equilibriumFlows prev alpha rho).getD (prev.wages, prev.consumption)
  ⟨prev.beta, prev.delta, alpha, rho, oa, ob,
    prev.savings_households + flows.1 - flows.2,
    prev.savings_firms + flows.2 - flows.1,
    flows.2, flows.1⟩

/-- Model of `numpy.percentile` with the default linear interpolation, over
exact rationals. -/
def percentile (xs : List ℚ) (p : ℚ) : ℚ :=
  let s := xs.mergeSort (fun a b => decide (a ≤ b))
  let n := s.length
  let h : ℚ := ((n : ℚ) - 1) * p / 100
  let lo := (Int.floor h).toNat
  let hi := (Int.ceil h).toNat
  let a := s.getD lo 0
  let b := s.getD hi 0
  a + (h - (lo : ℚ)) * (b - a)

/-- The IQR outlier test of `anomaly_detection._iqr`: whether the last
residual lies outside [Q1 - factor*IQR, Q3 + factor*IQR]. -/
def iqrLast (residuals : List ℚ) (factor : ℚ) : Bool :=
  let q1 := percentile residuals 25
  let q3 := percentile residuals 75
  let iqr_range := q3 - q1
  let lower_bound := q1 - factor * iqr_range
  let upper_bound := q3 + factor * iqr_range
  decide (residuals.getLastD 0 < lower_bound ∨ upper_bound < residuals.getLastD 0)

/-- The seasonal period computed by `detect_anomaly`:
`max(2, ceil(n * seasonality))`. -/
def seasonalPeriod (n : ℕ) (seasonality : ℚ) : ℕ :=
  max 2 (Int.ceil ((n : ℚ) * seasonality)).toNat

/-- The residual sequence of `detect_anomaly`: decompose, then drop the
uncomputable (NaN) positions, as `decomposition.resid.dropna()`. -/
def residualsOf (decomp : List ℚ → ℕ → List (Option ℚ)) (seasonality : ℚ)
    (timeseries : List ℚ) : List ℚ :=
  (decomp timeseries (seasonalPeriod timeseries.length seasonality)).filterMap id

/-- Mirrors `anomaly_detection.detect_anomaly` over the abstract decomposition:
empty input is rejected before decomposition; an empty residual sequence is
rejected after it; otherwise the IQR test on the last residual is returned. -/
def detect_anomaly (decomp : List ℚ → ℕ → List (Option ℚ)) (seasonality iqr_factor : ℚ)
    (timeseries : List ℚ) : Except DetectError Bool :=
  if timeseries = [] then Except.error DetectError.emptyInput
  else
    let residuals := residualsOf decomp seasonality timeseries
    if residuals = [] then Except.error DetectError.insufficientData
    else Except.ok (iqrLast residuals iqr_factor)

/-- Mirrors `EconomyNetwork.step`.  The random draws `ua`, `ur` stand for the two
calls to `random.uniform(-sens, sens)`; the decomposition backing the
anomaly detector is the abstract `decomp`.  The detector calls are not
wrapped in any handler, exactly as in the source: a detector error
propagates out of `step`. -/
def EconomyNetwork.step (net : EconomyNetwork) (decomp : List ℚ → ℕ → List (Option ℚ))
    (ua ur : ℚ) (alpha_override rho_override : Option ℚ) :
    Except DetectError EconomyNetwork :=
  let prev := net.latest
  let alpha := resolveProp prev.alpha ua alpha_override
  let rho := resolveProp prev.rho ur rho_override
  if net.history.length = net.mem_input then
    match detect_anomaly decomp (1/20) (3/2) (net.get_values EconState.alpha ++ [alpha]) with
    | Except.error e => Except.error e
    | Except.ok aOut =>
      match detect_anomaly decomp (1/20) (3/2) (net.get_values EconState.rho ++ [rho]) with
      | Except.error e => Except.error e
      | Except.ok rOut =>
          Except.ok ⟨net.sens, net.mem_input, net.t + 1,
            appendBounded net.mem_input net.history
              (nextEconState prev alpha rho
                (takeLast net.mem_input (prev.outliersAlpha ++ [aOut]))
                (takeLast net.mem_input (prev.outliersRho ++ [rOut])))⟩
  else
    Except.ok ⟨net.sens, net.mem_input, net.t + 1,
      appendBounded net.mem_input net.history
        (nextEconState prev alpha rho
          (prev.outliersAlpha ++ [false]) (prev.outliersRho ++ [false]))⟩

/-- The flow matrix, as a plain record of the four entries. -/
structure FlowMatrix where
  a11 : ℚ
  a12 : ℚ
  a21 : ℚ
  a22 : ℚ
deriving DecidableEq

/-- Mirrors `EconomyNetwork.get_matrix`: the normalized 2x2 snapshot
`[[savings_households, consumption], [wages, savings_firms]] / total`, the
zero matrix when the total is zero. -/
def EconomyNetwork.get_matrix (net : EconomyNetwork) : FlowMatrix :=
  let now := net.latest
  let total := now.consumption + now.wages + now.savings_households + now.savings_firms
  if total = 0 then ⟨0, 0, 0, 0⟩
  else ⟨now.savings_households / total, now.consumption / total,
        now.wages / total, now.savings_firms / total⟩

/-- Total flow of a state: the normalisation denominator of `get_matrix`. -/
def totalFlow (s : EconState) : ℚ :=
  s.consumption + s.wages + s.savings_households + s.savings_firms

/-- A decomposition that yields no residuals at all, used as a concrete
instance of the abstract external decomposition. -/
def dNone : List ℚ → ℕ → List (Option ℚ) := fun _ _ => []

/-- Engine seeded by `init (1/10) 2 (0,0) (1/2,1/2) (1,1) 0 0`. -/
def cNet : EconomyNetwork :=
  ⟨1/10, 2, 0, [⟨0, 0, 1/2, 1/2, [false], [false], 1, 1, 0, 0⟩]⟩

/-- The engine `cNet` after one `step` with zero draws and no overrides. -/
def c2Net : EconomyNetwork :=
  ⟨1/10, 2, 1, [⟨0, 0, 1/2, 1/2, [false], [false], 1, 1, 0, 0⟩,
    ⟨0, 0, 1/2, 1/2, [false, false], [false, false], 1, 1, 1, 1⟩]⟩

/-- Engine seeded with discount factors beta = delta = 1/2. -/
def bNet : EconomyNetwork :=
  ⟨1/10, 2, 0, [⟨1/2, 1/2, 1/2, 1/2, [false], [false], 1, 1, 0, 0⟩]⟩

/-- The engine `bNet` after one `step` with overrides alpha = rho = 1/2. -/
def bNet1 : EconomyNetwork :=
  ⟨1/10, 2, 1, [⟨1/2, 1/2, 1/2, 1/2, [false], [false], 1, 1, 0, 0⟩,
    ⟨1/2, 1/2, 1/2, 1/2, [false, false], [false, false], 1, 1, 1/2, 1/2⟩]⟩

/-- Engine seeded with a negative household savings value. -/
def mNet : EconomyNetwork :=
  ⟨1/10, 2, 0, [⟨0, 0, 1/2, 1/2, [false], [false], -1, 2, 0, 0⟩]⟩

/-- Engine seeded with initial propensity alpha = 0. -/
def zNet : EconomyNetwork :=
  ⟨1/10, 2, 0, [⟨0, 0, 0, 1/2, [false], [false], 1, 1, 0, 0⟩]⟩

/-- The engine `cNet` after one `step` with overrides alpha = rho = 1, a
degenerate parameter combination. -/
def degNet : EconomyNetwork :=
  ⟨1/10, 2, 1, [⟨0, 0, 1/2, 1/2, [false], [false], 1, 1, 0, 0⟩,
    ⟨0, 0, 1, 1, [false, false], [false, false], 1, 1, 0, 0⟩]⟩

lemma appendBounded_length {α : Type} (m : ℕ) (xs : List α) (x : α) :
    (appendBounded m xs x).length = min (xs.length + 1) m := by
  simp [appendBounded]
  omega

lemma appendBounded_getLastD {α : Type} (m : ℕ) (xs : List α) (x d : α) (hm : 1 ≤ m) :
    (appendBounded m xs x).getLastD d = x := by
  unfold appendBounded
  rw [List.drop_append_of_le_length (by omega)]
  exact List.getLastD_concat d x _

lemma takeLast_length {α : Type} (k : ℕ) (xs : List α) :
    (takeLast k xs).length = min xs.length k := by
  simp [takeLast]
  omega

lemma step_ok_inversion (net : EconomyNetwork) (decomp : List ℚ → ℕ → List (Option ℚ))
    (ua ur : ℚ) (ao rov : Option ℚ) (net' : EconomyNetwork)
    (h : net.step decomp ua ur ao rov = Except.ok net') :
    net'.sens = net.sens ∧ net'.mem_input = net.mem_input ∧ net'.t = net.t + 1 ∧
    ∃ oa ob : List Bool,
      net'.history = appendBounded net.mem_input net.history
        (nextEconState net.latest (resolveProp net.latest.alpha ua ao)
          (resolveProp net.latest.rho ur rov) oa ob) ∧
      oa.length = (if net.history.length = net.mem_input
        then min (net.latest.outliersAlpha.length + 1) net.mem_input
        else net.latest.outliersAlpha.length + 1) ∧
      ob.length = (if net.history.length = net.mem_input
        then min (net.latest.outliersRho.length + 1) net.mem_input
        else net.latest.outliersRho.length + 1) := by
  unfold EconomyNetwork.step at h
  dsimp only at h
  split at h
  next hfull =>
    split at h
    next e heq => exact absurd h (by simp)
    next aOut heq =>
      split at h
      next e heq2 => exact absurd h (by simp)
      next rOut heq2 =>
        cases h
        refine ⟨rfl, rfl, rfl, _, _, rfl, ?_, ?_⟩
        · rw [if_pos hfull, takeLast_length]
          simp
        · rw [if_pos hfull, takeLast_length]
          simp
  next hfull =>
    cases h
    refine ⟨rfl, rfl, rfl, _, _, rfl, ?_, ?_⟩
    · rw [if_neg hfull]
      simp
    · rw [if_neg hfull]
      simp

lemma equilibriumFlows_zero_discounts (prev : EconState) (a r : ℚ)
    (hb : prev.beta = 0) (hd : prev.delta = 0)
    (ha : a ≠ 0) (hr : r ≠ 0) (har : a * r ≠ 1) :
    equilibriumFlows prev a r =
      some ((1 / r - a)⁻¹ * (a * prev.savings_households + prev.savings_firms),
            (1 / a - r)⁻¹ * (r * prev.savings_firms + prev.savings_households)) := by
  unfold equilibriumFlows
  rw [hb, hd]
  have h10 : (1 : ℚ) - 0 = 1 := by norm_num
  rw [h10]
  have hhf : 1 + (1 / a - 1) / 1 = 1 / a := by ring
  have hff : 1 + (1 / r - 1) / 1 = 1 / r := by ring
  rw [if_neg (by push_neg; exact ⟨ha, hr, by norm_num, by norm_num⟩)]
  dsimp only
  rw [hhf, hff]
  have hfa : (1 : ℚ) / a ≠ 0 := one_div_ne_zero ha
  have hfr : (1 : ℚ) / r ≠ 0 := one_div_ne_zero hr
  have hprod : 1 / a * (1 / r) - 1 ≠ 0 := by
    intro hc
    apply har
    field_simp at hc
    linarith
  have hra : 1 / r - a ≠ 0 := by
    intro hc
    apply har
    have : (1 : ℚ) = a * r := by
      field_simp at hc
      linarith
    linarith
  have hia : (1 : ℚ) / a - r ≠ 0 := by
    intro hc
    apply har
    have : (1 : ℚ) = a * r := by
      field_simp at hc
      linarith
    linarith
  rw [if_neg (by push_neg; exact ⟨hprod, hfr, hfa⟩)]
  have h1ar : (1 : ℚ) - a * r ≠ 0 := sub_ne_zero.mpr (Ne.symm har)
  have har0 : a * r ≠ 0 := mul_ne_zero ha hr
  have inv1 : (1 / a * (1 / r) - 1)⁻¹ = a * r / (1 - a * r) := by
    rw [show 1 / a * (1 / r) - 1 = (1 - a * r) / (a * r) by field_simp, inv_div]
  have inv2 : ((1 : ℚ) / r)⁻¹ = r := by rw [one_div, inv_inv]
  have inv2a : ((1 : ℚ) / a)⁻¹ = a := by rw [one_div, inv_inv]
  have inv3 : ((1 : ℚ) / r - a)⁻¹ = r / (1 - a * r) := by
    rw [show (1 : ℚ) / r - a = (1 - a * r) / r by
      rw [sub_div]
      congr 1
      rw [mul_comm]
      exact (mul_div_cancel_left₀ a hr).symm, inv_div]
  have inv4 : ((1 : ℚ) / a - r)⁻¹ = a / (1 - a * r) := by
    rw [show (1 : ℚ) / a - r = (1 - a * r) / a by
      rw [sub_div]
      congr 1
      exact (mul_div_cancel_left₀ r ha).symm, inv_div]
  rw [inv1, inv2, inv2a, inv3, inv4]
  have e1 : a * r / (1 - a * r) * (r * prev.savings_firms + prev.savings_households) +
      r * prev.savings_firms =
      r / (1 - a * r) * (a * prev.savings_households + prev.savings_firms) := by
    field_simp
    ring
  simp only [Option.some.injEq, Prod.mk.injEq]
  refine ⟨e1, ?_⟩
  rw [e1]
  field_simp
  left
  ring

lemma step_not_full (net : EconomyNetwork) (decomp : List ℚ → ℕ → List (Option ℚ))
    (ua ur : ℚ) (ao rov : Option ℚ) (h : net.history.length ≠ net.mem_input) :
    net.step decomp ua ur ao rov = Except.ok ⟨net.sens, net.mem_input, net.t + 1,
      appendBounded net.mem_input net.history
        (nextEconState net.latest (resolveProp net.latest.alpha ua ao)
          (resolveProp net.latest.rho ur rov)
          (net.latest.outliersAlpha ++ [false]) (net.latest.outliersRho ++ [false]))⟩ := by
  unfold EconomyNetwork.step
  dsimp only
  rw [if_neg h]

lemma step_full_alpha_err (net : EconomyNetwork) (decomp : List ℚ → ℕ → List (Option ℚ))
    (ua ur : ℚ) (ao rov : Option ℚ) (e : DetectError)
    (hfull : net.history.length = net.mem_input)
    (he : detect_anomaly decomp (1/20) (3/2)
      (net.get_values EconState.alpha ++ [resolveProp net.latest.alpha ua ao]) = Except.error e) :
    net.step decomp ua ur ao rov = Except.error e := by
  unfold EconomyNetwork.step
  dsimp only
  rw [if_pos hfull, he]

inductive Reachable : EconomyNetwork → Prop
  | seed (sens : ℚ) (mem_input : ℕ) (discounts prop savings : ℚ × ℚ)
      (consumption_init wages_init : ℚ) (net : EconomyNetwork) :
      EconomyNetwork.init sens mem_input discounts prop savings consumption_init wages_init
        = Except.ok net → Reachable net
  | next (net : EconomyNetwork) (decomp : List ℚ → ℕ → List (Option ℚ))
      (ua ur : ℚ) (ao rov : Option ℚ) (net1 : EconomyNetwork) :
      Reachable net → net.step decomp ua ur ao rov = Except.ok net1 → Reachable net1

lemma init_ok_inversion (sens : ℚ) (mem_input : ℕ) (discounts prop savings : ℚ × ℚ)
    (consumption_init wages_init : ℚ) (net : EconomyNetwork)
    (h : EconomyNetwork.init sens mem_input discounts prop savings consumption_init wages_init
      = Except.ok net) :
    net = ⟨sens, mem_input, 0,
      [⟨discounts.1, discounts.2, prop.1, prop.2, [false], [false],
        savings.1, savings.2, consumption_init, wages_init⟩]⟩ ∧ 2 ≤ mem_input := by
  unfold EconomyNetwork.init at h
  split at h
  · exact absurd h (by simp)
  · split at h
    · exact absurd h (by simp)
    · split at h
      · exact absurd h (by simp)
      · cases h
        next h1 h2 h3 => exact ⟨rfl, by omega⟩

lemma reachable_invariant (net : EconomyNetwork) (h : Reachable net) :
    2 ≤ net.mem_input ∧ net.history ≠ [] ∧
    net.history.length = min (net.t + 1) net.mem_input ∧
    net.latest.outliersAlpha.length = net.history.length ∧
    net.latest.outliersRho.length = net.history.length := by
  induction h with
  | seed sens mem_input discounts prop savings c0 w0 net0 hinit =>
    obtain ⟨hnet, hmem⟩ := init_ok_inversion _ _ _ _ _ _ _ _ hinit
    subst hnet
    refine ⟨hmem, by simp, ?_, by simp [EconomyNetwork.latest], by simp [EconomyNetwork.latest]⟩
    simp only [List.length_cons, List.length_nil]
    omega
  | next net0 decomp ua ur ao rov net1 _ hstep ih =>
    obtain ⟨hmem, hne, hlen, hoa, hob⟩ := ih
    obtain ⟨hs, hm, ht, oa, ob, hhist, hla, hlb⟩ := step_ok_inversion _ _ _ _ _ _ _ hstep
    have hm1 : 1 ≤ net0.mem_input := by omega
    have hlen1 : net1.history.length = min (net0.history.length + 1) net0.mem_input := by
      rw [hhist, appendBounded_length]
    have hlatest : net1.latest = nextEconState net0.latest
        (resolveProp net0.latest.alpha ua ao) (resolveProp net0.latest.rho ur rov) oa ob := by
      rw [EconomyNetwork.latest, hhist, appendBounded_getLastD _ _ _ _ hm1]
    refine ⟨hm ▸ hmem, ?_, ?_, ?_, ?_⟩
    · have : 1 ≤ net1.history.length := by omega
      exact List.ne_nil_of_length_pos (by omega)
    · rw [hlen1, hm, ht, hlen]
      omega
    · rw [hlatest]
      show oa.length = net1.history.length
      rw [hla, hlen1]
      split
      next hfl => omega
      next hfl => omega
    · rw [hlatest]
      show ob.length = net1.history.length
      rw [hlb, hlen1]
      split
      next hfl => omega
      next hfl => omega

/-- C10: `detect_anomaly` raises `EmptyInput` on an empty timeseries, before
any decomposition is attempted (the result on `[]` does not depend on the
decomposition at all); it raises `InsufficientData` exactly when, after
decomposition and dropping uncomputable positions, the residual sequence is
empty; otherwise it returns a boolean, the IQR test on the last residual. -/
theorem detect_anomaly_error_spec (decomp : List ℚ → ℕ → List (Option ℚ))
    (seasonality iqr_factor : ℚ) (ts : List ℚ) :
    (ts = [] → detect_anomaly decomp seasonality iqr_factor ts
      = Except.error DetectError.emptyInput) ∧
    (ts ≠ [] → residualsOf decomp seasonality ts = [] →
      detect_anomaly decomp seasonality iqr_factor ts
        = Except.error DetectError.insufficientData) ∧
    (ts ≠ [] → residualsOf decomp seasonality ts ≠ [] →
      detect_anomaly decomp seasonality iqr_factor ts
        = Except.ok (iqrLast (residualsOf decomp seasonality ts) iqr_factor)) := by
  refine ⟨fun h => ?_, fun h hr => ?_, fun h hr => ?_⟩
  · simp [detect_anomaly, h]
  · simp [detect_anomaly, h, hr]
  · simp [detect_anomaly, h, hr]

/-- Witness for C10 at concrete inputs: the empty series is rejected as
`EmptyInput`, and a three-point series whose decomposition yields no
residuals is rejected as `InsufficientData`. -/
theorem detect_anomaly_error_spec_witness :
    detect_anomaly dNone (1/20) (3/2) ([] : List ℚ) = Except.error DetectError.emptyInput ∧
    detect_anomaly dNone (1/20) (3/2) [1, 2, 3] = Except.error DetectError.insufficientData :=
  ⟨(detect_anomaly_error_spec dNone (1/20) (3/2) []).1 rfl,
   (detect_anomaly_error_spec dNone (1/20) (3/2) [1, 2, 3]).2.1 (by simp)
     (by simp [residualsOf, dNone])⟩

/-- C4: engine construction fails with `InvalidParameter` exactly when the
volatility is nonpositive, the memory is below 2, or an initial propensity
lies outside [0, 1]; with valid inputs it succeeds and seeds a one-element
history holding the initial state. -/
theorem init_validation (sens : ℚ) (mem_input : ℕ) (discounts prop savings : ℚ × ℚ)
    (c0 w0 : ℚ) :
    ((∃ msg, EconomyNetwork.init sens mem_input discounts prop savings c0 w0
        = Except.error (InitError.invalidParameter msg)) ↔
      (sens ≤ 0 ∨ mem_input < 2 ∨
        ¬ (0 ≤ prop.1 ∧ prop.1 ≤ 1 ∧ 0 ≤ prop.2 ∧ prop.2 ≤ 1))) ∧
    (∀ net, EconomyNetwork.init sens mem_input discounts prop savings c0 w0
        = Except.ok net →
      net.history = [⟨discounts.1, discounts.2, prop.1, prop.2, [false], [false],
        savings.1, savings.2, c0, w0⟩] ∧ net.history.length = 1) := by
  constructor
  · constructor
    · rintro ⟨msg, hmsg⟩
      unfold EconomyNetwork.init at hmsg
      by_cases h1 : sens ≤ 0
      · exact Or.inl h1
      by_cases h2 : mem_input < 2
      · exact Or.inr (Or.inl h2)
      by_cases h3 : ¬ (0 ≤ prop.1 ∧ prop.1 ≤ 1 ∧ 0 ≤ prop.2 ∧ prop.2 ≤ 1)
      · exact Or.inr (Or.inr h3)
      · rw [if_neg h1, if_neg h2, if_neg h3] at hmsg
        exact absurd hmsg (by simp)
    · intro hcond
      unfold EconomyNetwork.init
      rcases hcond with h1 | h2 | h3
      · rw [if_pos h1]
        exact ⟨_, rfl⟩
      · by_cases h1 : sens ≤ 0
        · rw [if_pos h1]
          exact ⟨_, rfl⟩
        · rw [if_neg h1, if_pos h2]
          exact ⟨_, rfl⟩
      · by_cases h1 : sens ≤ 0
        · rw [if_pos h1]
          exact ⟨_, rfl⟩
        · by_cases h2 : mem_input < 2
          · rw [if_neg h1, if_pos h2]
            exact ⟨_, rfl⟩
          · rw [if_neg h1, if_neg h2, if_pos h3]
            exact ⟨_, rfl⟩
  · intro net h
    have := (init_ok_inversion _ _ _ _ _ _ _ _ h).1
    rw [this]
    exact ⟨rfl, rfl⟩

/-- Witness for C4: constructing with memory 1 fails with `InvalidParameter`,
and a valid construction seeds exactly the one-element history. -/
theorem init_validation_witness :
    (∃ msg, EconomyNetwork.init (1/10) 1 (0, 0) (1/2, 1/2) (1, 1) 0 0
      = Except.error (InitError.invalidParameter msg)) ∧
    cNet.history = [⟨0, 0, 1/2, 1/2, [false], [false], 1, 1, 0, 0⟩] :=
  ⟨(init_validation (1/10) 1 (0, 0) (1/2, 1/2) (1, 1) 0 0).1.mpr
      (Or.inr (Or.inl (by norm_num))),
   ((init_validation (1/10) 2 (0, 0) (1/2, 1/2) (1, 1) 0 0).2 cNet
      (by simp [EconomyNetwork.init, cNet]; norm_num)).1⟩

lemma step_ok_latest (net : EconomyNetwork) (decomp : List ℚ → ℕ → List (Option ℚ))
    (ua ur : ℚ) (ao rov : Option ℚ) (net' : EconomyNetwork) (hm : 1 ≤ net.mem_input)
    (h : net.step decomp ua ur ao rov = Except.ok net') :
    ∃ oa ob : List Bool, net'.latest = nextEconState net.latest
      (resolveProp net.latest.alpha ua ao) (resolveProp net.latest.rho ur rov) oa ob := by
  obtain ⟨_, _, _, oa, ob, hhist, _, _⟩ := step_ok_inversion _ _ _ _ _ _ _ h
  exact ⟨oa, ob, by rw [EconomyNetwork.latest, hhist, appendBounded_getLastD _ _ _ _ hm]⟩

lemma latest_mk (s : ℚ) (m tk : ℕ) (xs : List EconState) (x : EconState) (hm : 1 ≤ m) :
    (⟨s, m, tk, appendBounded m xs x⟩ : EconomyNetwork).latest = x := by
  rw [EconomyNetwork.latest]
  exact appendBounded_getLastD _ _ _ _ hm

/-- C1 (amended): with both discount factors equal to 0 — the only case in
which the specification's reciprocal closed forms describe the engine — a
`step` with resolved propensities `a`, `r` (non-degenerate: both nonzero and
product not 1) stores consumption `(1/a - r)⁻¹ (r sF + sH)` and wages
`(1/r - a)⁻¹ (a sH + sF)`.  The general engine instead follows the
household/firm-factor equations of `equilibriumFlows`. -/
theorem step_closed_form_of_zero_discounts (net : EconomyNetwork)
    (decomp : List ℚ → ℕ → List (Option ℚ)) (ua ur a r : ℚ) (net' : EconomyNetwork)
    (hm : 1 ≤ net.mem_input)
    (hb : net.latest.beta = 0) (hd : net.latest.delta = 0)
    (ha : a ≠ 0) (hr : r ≠ 0) (har : a * r ≠ 1)
    (h : net.step decomp ua ur (some a) (some r) = Except.ok net') :
    net'.latest.consumption =
      (1 / a - r)⁻¹ * (r * net.latest.savings_firms + net.latest.savings_households) ∧
    net'.latest.wages =
      (1 / r - a)⁻¹ * (a * net.latest.savings_households + net.latest.savings_firms) := by
  obtain ⟨oa, ob, hlatest⟩ := step_ok_latest _ _ _ _ _ _ _ hm h
  rw [hlatest]
  simp only [resolveProp, Option.getD_some, nextEconState,
    equilibriumFlows_zero_discounts net.latest a r hb hd ha hr har, Option.getD_some]
  exact ⟨trivial, trivial⟩

/-- Witness for C1: on the engine seeded with discounts (0,0), propensities
(1/2,1/2) and savings (1,1), a step overriding both propensities to 1/2
stores consumption matching the reciprocal closed form (value 1). -/
theorem step_closed_form_of_zero_discounts_witness :
    cNet.step dNone 0 0 (some (1/2)) (some (1/2)) = Except.ok c2Net ∧
    c2Net.latest.consumption = (1 / (1/2 : ℚ) - 1/2)⁻¹ *
      ((1/2) * cNet.latest.savings_firms + cNet.latest.savings_households) := by
  have hstep : cNet.step dNone 0 0 (some (1/2)) (some (1/2)) = Except.ok c2Net := by
    simp [EconomyNetwork.step, cNet, c2Net, EconomyNetwork.latest, resolveProp, nextEconState,
      equilibriumFlows, appendBounded, takeLast, dfltState, EconomyNetwork.get_values]
    norm_num
  exact ⟨hstep, (step_closed_form_of_zero_discounts cNet dNone 0 0 (1/2) (1/2) c2Net
    (by norm_num [cNet])
    (by simp [cNet, EconomyNetwork.latest])
    (by simp [cNet, EconomyNetwork.latest])
    (by norm_num) (by norm_num) (by norm_num) hstep).1⟩

/-- Counterexample for C1: the engine with discount factors beta = delta =
1/2 stores consumption 1/2 for a step whose resolved propensities are both
1/2 on savings (1,1), while the claimed reciprocal formula gives 1. -/
theorem step_closed_form_fails_with_discounts :
    EconomyNetwork.init (1/10) 2 (1/2, 1/2) (1/2, 1/2) (1, 1) 0 0 = Except.ok bNet ∧
    bNet.step dNone 0 0 (some (1/2)) (some (1/2)) = Except.ok bNet1 ∧
    bNet1.latest.consumption = 1/2 ∧
    (1 / (1/2 : ℚ) - 1/2)⁻¹ *
      ((1/2) * bNet.latest.savings_firms + bNet.latest.savings_households) = 1 ∧
    (1/2 : ℚ) ≠ 1 := by
  refine ⟨?_, ?_, ?_, ?_, by norm_num⟩
  · simp [EconomyNetwork.init, bNet]
    norm_num
  · simp [EconomyNetwork.step, bNet, bNet1, EconomyNetwork.latest, resolveProp, nextEconState,
      equilibriumFlows, appendBounded, takeLast, dfltState, EconomyNetwork.get_values]
    norm_num
  · simp [bNet1, EconomyNetwork.latest]
  · simp [bNet, EconomyNetwork.latest]
    norm_num

/-- C8: a supplied override is stored verbatim — no clamping, no
perturbation; with no override the stored propensity is the previous value
plus the draw, clamped to [0.01, 0.99].  The draws `ua`, `ur` stand for the
uniform random values. -/
theorem step_override_verbatim_and_clamp (net : EconomyNetwork)
    (decomp : List ℚ → ℕ → List (Option ℚ)) (ua ur : ℚ) (ao rov : Option ℚ)
    (net' : EconomyNetwork) (hm : 1 ≤ net.mem_input)
    (h : net.step decomp ua ur ao rov = Except.ok net') :
    (∀ x, ao = some x → net'.latest.alpha = x) ∧
    (ao = none → net'.latest.alpha = max (1/100) (min (99/100) (net.latest.alpha + ua))) ∧
    (∀ x, rov = some x → net'.latest.rho = x) ∧
    (rov = none → net'.latest.rho = max (1/100) (min (99/100) (net.latest.rho + ur))) := by
  obtain ⟨oa, ob, hlatest⟩ := step_ok_latest _ _ _ _ _ _ _ hm h
  refine ⟨fun x hx => ?_, fun hx => ?_, fun x hx => ?_, fun hx => ?_⟩ <;>
    rw [hlatest] <;> simp [nextEconState, resolveProp, hx]

/-- Witness for C8 at a concrete engine: the override 1/2 is stored exactly,
and with no override the clamped random walk value is stored. -/
theorem step_override_verbatim_and_clamp_witness :
    c2Net.latest.alpha = 1/2 ∧ degNet.latest.alpha = 1 := by
  have hstep : cNet.step dNone 0 0 none none = Except.ok c2Net := by
    simp [EconomyNetwork.step, cNet, c2Net, EconomyNetwork.latest, resolveProp, nextEconState,
      equilibriumFlows, appendBounded, takeLast, dfltState, EconomyNetwork.get_values]
    norm_num
  have hstep2 : cNet.step dNone 0 0 (some 1) (some 1) = Except.ok degNet := by
    simp [EconomyNetwork.step, cNet, degNet, EconomyNetwork.latest, resolveProp, nextEconState,
      equilibriumFlows, appendBounded, takeLast, dfltState, EconomyNetwork.get_values]
  constructor
  · have := (step_override_verbatim_and_clamp cNet dNone 0 0 none none c2Net
      (by norm_num [cNet]) hstep).2.1 rfl
    rw [this]
    simp [cNet, EconomyNetwork.latest]
    norm_num
  · exact (step_override_verbatim_and_clamp cNet dNone 0 0 (some 1) (some 1) degNet
      (by norm_num [cNet]) hstep2).1 1 rfl

/-- C9: every successful step updates the savings by the net flow and hence
conserves the sum of household and firm savings exactly. -/
theorem step_savings_update_conserved (net : EconomyNetwork)
    (decomp : List ℚ → ℕ → List (Option ℚ)) (ua ur : ℚ) (ao rov : Option ℚ)
    (net' : EconomyNetwork) (hm : 1 ≤ net.mem_input)
    (h : net.step decomp ua ur ao rov = Except.ok net') :
    net'.latest.savings_households
      = net.latest.savings_households + net'.latest.wages - net'.latest.consumption ∧
    net'.latest.savings_firms
      = net.latest.savings_firms + net'.latest.consumption - net'.latest.wages ∧
    net'.latest.savings_households + net'.latest.savings_firms
      = net.latest.savings_households + net.latest.savings_firms := by
  obtain ⟨oa, ob, hlatest⟩ := step_ok_latest _ _ _ _ _ _ _ hm h
  rw [hlatest]
  refine ⟨rfl, rfl, ?_⟩
  simp only [nextEconState]
  ring

/-- Witness for C9 on a concrete step: savings stay (1,1) and their sum is
conserved. -/
theorem step_savings_update_conserved_witness :
    c2Net.latest.savings_households + c2Net.latest.savings_firms
      = cNet.latest.savings_households + cNet.latest.savings_firms := by
  have hstep : cNet.step dNone 0 0 none none = Except.ok c2Net := by
    simp [EconomyNetwork.step, cNet, c2Net, EconomyNetwork.latest, resolveProp, nextEconState,
      equilibriumFlows, appendBounded, takeLast, dfltState, EconomyNetwork.get_values]
    norm_num
  exact (step_savings_update_conserved cNet dNone 0 0 none none c2Net
    (by norm_num [cNet]) hstep).2.2

/-- C5 (amended): every state stored by a `step` whose overrides, when
present, lie in [0.01, 0.99] has both propensities in [0.01, 0.99]; the
seed state is only validated to [0, 1] (see the counterexample). -/
theorem step_propensities_in_range (net : EconomyNetwork)
    (decomp : List ℚ → ℕ → List (Option ℚ)) (ua ur : ℚ) (ao rov : Option ℚ)
    (net' : EconomyNetwork) (hm : 1 ≤ net.mem_input)
    (hao : ∀ x, ao = some x → 1/100 ≤ x ∧ x ≤ 99/100)
    (hro : ∀ x, rov = some x → 1/100 ≤ x ∧ x ≤ 99/100)
    (h : net.step decomp ua ur ao rov = Except.ok net') :
    (1/100 ≤ net'.latest.alpha ∧ net'.latest.alpha ≤ 99/100) ∧
    (1/100 ≤ net'.latest.rho ∧ net'.latest.rho ≤ 99/100) := by
  obtain ⟨oa, ob, hlatest⟩ := step_ok_latest _ _ _ _ _ _ _ hm h
  rw [hlatest]
  have hclamp : ∀ v u : ℚ, 1/100 ≤ max (1/100) (min (99/100) (v + u)) ∧
      max (1/100) (min (99/100) (v + u)) ≤ 99/100 := by
    intro v u
    constructor
    · exact le_max_left _ _
    · exact max_le (by norm_num) (min_le_left _ _)
  constructor
  · show 1/100 ≤ resolveProp net.latest.alpha ua ao ∧ resolveProp net.latest.alpha ua ao ≤ 99/100
    cases ao with
    | none => exact hclamp _ _
    | some x => simpa [resolveProp] using hao x rfl
  · show 1/100 ≤ resolveProp net.latest.rho ur rov ∧ resolveProp net.latest.rho ur rov ≤ 99/100
    cases rov with
    | none => exact hclamp _ _
    | some x => simpa [resolveProp] using hro x rfl

/-- Witness for C5: after a step of `cNet` with no overrides, the stored
propensities lie in [0.01, 0.99]. -/
theorem step_propensities_in_range_witness :
    (1/100 ≤ c2Net.latest.alpha ∧ c2Net.latest.alpha ≤ 99/100) ∧
    (1/100 ≤ c2Net.latest.rho ∧ c2Net.latest.rho ≤ 99/100) := by
  have hstep : cNet.step dNone 0 0 none none = Except.ok c2Net := by
    simp [EconomyNetwork.step, cNet, c2Net, EconomyNetwork.latest, resolveProp, nextEconState,
      equilibriumFlows, appendBounded, takeLast, dfltState, EconomyNetwork.get_values]
    norm_num
  exact step_propensities_in_range cNet dNone 0 0 none none c2Net (by norm_num [cNet])
    (by simp) (by simp) hstep

/-- Counterexample for C5: the claim extends the [0.01, 0.99] bound to the
seed state, but construction only validates propensities to [0, 1]: the
engine seeded with alpha = 0 is a reachable state violating the bound. -/
theorem seed_propensity_out_of_range :
    EconomyNetwork.init (1/10) 2 (0, 0) (0, 1/2) (1, 1) 0 0 = Except.ok zNet ∧
    zNet.latest.alpha = 0 ∧ ¬ (1/100 ≤ zNet.latest.alpha) := by
  refine ⟨?_, ?_, ?_⟩
  · simp [EconomyNetwork.init, zNet]
    norm_num
  · simp [zNet, EconomyNetwork.latest]
  · simp [zNet, EconomyNetwork.latest]

/-- C7: when the equilibrium equations are degenerate (a divisor is exactly
zero, i.e. the `try` block fails), the step does not propagate any error
from that computation: on a non-full history the step succeeds outright,
and any successful step stores the previous tick's consumption and wages,
still updating savings, history and the tick counter. -/
theorem step_degenerate_fallback (net : EconomyNetwork)
    (decomp : List ℚ → ℕ → List (Option ℚ)) (ua ur a r : ℚ) (net' : EconomyNetwork)
    (hm : 1 ≤ net.mem_input)
    (hdeg : equilibriumFlows net.latest a r = none) :
    (net.history.length ≠ net.mem_input →
      ∃ n1, net.step decomp ua ur (some a) (some r) = Except.ok n1) ∧
    (net.step decomp ua ur (some a) (some r) = Except.ok net' →
      net'.latest.consumption = net.latest.consumption ∧
      net'.latest.wages = net.latest.wages ∧
      net'.latest.savings_households
        = net.latest.savings_households + net.latest.wages - net.latest.consumption ∧
      net'.latest.savings_firms
        = net.latest.savings_firms + net.latest.consumption - net.latest.wages ∧
      net'.history.length = min (net.history.length + 1) net.mem_input ∧
      net'.t = net.t + 1) := by
  constructor
  · intro hne
    exact ⟨_, step_not_full net decomp ua ur (some a) (some r) hne⟩
  · intro h
    obtain ⟨_, _, ht, oa, ob, hhist, _, _⟩ := step_ok_inversion _ _ _ _ _ _ _ h
    have hlatest : net'.latest = nextEconState net.latest a r oa ob := by
      rw [EconomyNetwork.latest, hhist, appendBounded_getLastD _ _ _ _ hm]
      simp [resolveProp]
    rw [hlatest]
    refine ⟨?_, ?_, ?_, ?_, ?_, ht⟩
    · simp [nextEconState, hdeg]
    · simp [nextEconState, hdeg]
    · simp [nextEconState, hdeg]
    · simp [nextEconState, hdeg]
    · rw [hhist, appendBounded_length]

/-- Witness for C7: on `cNet`, the override pair alpha = rho = 1 makes the
equilibrium divisor zero; the step succeeds and keeps consumption and wages
at the previous tick's values (0, 0). -/
theorem step_degenerate_fallback_witness :
    cNet.step dNone 0 0 (some 1) (some 1) = Except.ok degNet ∧
    degNet.latest.consumption = cNet.latest.consumption ∧
    degNet.latest.wages = cNet.latest.wages ∧
    degNet.history.length = min (cNet.history.length + 1) cNet.mem_input := by
  have hstep : cNet.step dNone 0 0 (some 1) (some 1) = Except.ok degNet := by
    simp [EconomyNetwork.step, cNet, degNet, EconomyNetwork.latest, resolveProp, nextEconState,
      equilibriumFlows, appendBounded, takeLast, dfltState, EconomyNetwork.get_values]
  have hdeg : equilibriumFlows cNet.latest 1 1 = none := by
    simp [equilibriumFlows, cNet, EconomyNetwork.latest]
  have h := (step_degenerate_fallback cNet dNone 0 0 1 1 degNet
    (by norm_num [cNet]) hdeg).2 hstep
  exact ⟨hstep, h.1, h.2.1, h.2.2.2.2.1⟩

/-- C2 (amended): while the history is below capacity, anomaly detection is
not attempted and a `false` flag is appended for each tracked variable — the
step always succeeds; but once the history is full the engine does NOT
catch detector failures: an error from `detect_anomaly` propagates out of
`step` and aborts the tick (see the counterexample). -/
theorem step_anomaly_path (net : EconomyNetwork)
    (decomp : List ℚ → ℕ → List (Option ℚ)) (ua ur : ℚ) (ao rov : Option ℚ) :
    (net.history.length < net.mem_input →
      ∃ net', net.step decomp ua ur ao rov = Except.ok net' ∧
        net'.latest.outliersAlpha = net.latest.outliersAlpha ++ [false] ∧
        net'.latest.outliersRho = net.latest.outliersRho ++ [false]) ∧
    (net.history.length = net.mem_input →
      ∀ e, detect_anomaly decomp (1/20) (3/2)
          (net.get_values EconState.alpha ++ [resolveProp net.latest.alpha ua ao])
        = Except.error e →
      net.step decomp ua ur ao rov = Except.error e) := by
  constructor
  · intro hlt
    have hm : 1 ≤ net.mem_input := by omega
    refine ⟨_, step_not_full net decomp ua ur ao rov (by omega), ?_, ?_⟩ <;>
      rw [latest_mk _ _ _ _ _ hm] <;> rfl
  · intro hfull e he
    exact step_full_alpha_err net decomp ua ur ao rov e hfull he

/-- Witness for C2: the first step of `cNet` (history 1 < memory 2)
succeeds and appends a `false` outlier flag for each tracked variable. -/
theorem step_anomaly_path_witness :
    cNet.step dNone 0 0 none none = Except.ok c2Net ∧
    c2Net.latest.outliersAlpha = cNet.latest.outliersAlpha ++ [false] ∧
    c2Net.latest.outliersRho = cNet.latest.outliersRho ++ [false] := by
  have hstep : cNet.step dNone 0 0 none none = Except.ok c2Net := by
    simp [EconomyNetwork.step, cNet, c2Net, EconomyNetwork.latest, resolveProp, nextEconState,
      equilibriumFlows, appendBounded, takeLast, dfltState, EconomyNetwork.get_values]
    norm_num
  obtain ⟨net', hnet', hfa, hfr⟩ :=
    (step_anomaly_path cNet dNone 0 0 none none).1 (by norm_num [cNet])
  rw [hstep] at hnet'
  cases hnet'
  exact ⟨hstep, hfa, hfr⟩

/-- Counterexample for C2: with the history at capacity, a detector failure
is not caught by the engine — the step aborts with `InsufficientData`
instead of completing the tick with "no anomaly detected". -/
theorem step_detector_error_propagates :
    EconomyNetwork.init (1/10) 2 (0, 0) (1/2, 1/2) (1, 1) 0 0 = Except.ok cNet ∧
    cNet.step dNone 0 0 none none = Except.ok c2Net ∧
    c2Net.step dNone 0 0 none none = Except.error DetectError.insufficientData := by
  refine ⟨?_, ?_, ?_⟩
  · simp [EconomyNetwork.init, cNet]
    norm_num
  · simp [EconomyNetwork.step, cNet, c2Net, EconomyNetwork.latest, resolveProp, nextEconState,
      equilibriumFlows, appendBounded, takeLast, dfltState, EconomyNetwork.get_values]
    norm_num
  · simp [EconomyNetwork.step, c2Net, EconomyNetwork.latest, resolveProp, nextEconState,
      equilibriumFlows, appendBounded, takeLast, dfltState, EconomyNetwork.get_values,
      detect_anomaly, residualsOf, dNone]

/-- C6: for every reachable engine, the history length is bounded by the
memory and equals min(ticks + 1, memory), and the outlier-flag lists of the
latest state mirror the history length (hence are bounded by the memory). -/
theorem history_bounds_reachable (net : EconomyNetwork) (h : Reachable net) :
    net.history.length ≤ net.mem_input ∧
    net.history.length = min (net.t + 1) net.mem_input ∧
    net.latest.outliersAlpha.length = net.history.length ∧
    net.latest.outliersRho.length = net.history.length := by
  obtain ⟨hm, hne, hlen, ha, hb⟩ := reachable_invariant net h
  exact ⟨by omega, hlen, ha, hb⟩

/-- Witness for C6 on the concrete reachable engine `c2Net`, obtained from
a valid construction followed by one step. -/
theorem history_bounds_reachable_witness :
    c2Net.history.length ≤ c2Net.mem_input ∧
    c2Net.history.length = min (c2Net.t + 1) c2Net.mem_input ∧
    c2Net.latest.outliersAlpha.length = c2Net.history.length ∧
    c2Net.latest.outliersRho.length = c2Net.history.length := by
  have hinit : EconomyNetwork.init (1/10) 2 (0, 0) (1/2, 1/2) (1, 1) 0 0 = Except.ok cNet := by
    simp [EconomyNetwork.init, cNet]
    norm_num
  have hstep : cNet.step dNone 0 0 none none = Except.ok c2Net := by
    simp [EconomyNetwork.step, cNet, c2Net, EconomyNetwork.latest, resolveProp, nextEconState,
      equilibriumFlows, appendBounded, takeLast, dfltState, EconomyNetwork.get_values]
    norm_num
  exact history_bounds_reachable c2Net
    (Reachable.next cNet dNone 0 0 none none c2Net
      (Reachable.seed (1/10) 2 (0, 0) (1/2, 1/2) (1, 1) 0 0 cNet hinit) hstep)

/-- C3 (amended): `get_matrix` is the stated normalized layout and returns
the zero matrix when the total flow is zero; whenever the total is nonzero
the four entries sum to 1, and they lie in [0, 1] whenever the four state
values are all nonnegative — which the engine does not guarantee (see the
counterexample with negative savings). -/
theorem get_matrix_spec (net : EconomyNetwork) :
    (totalFlow net.latest = 0 → net.get_matrix = ⟨0, 0, 0, 0⟩) ∧
    (totalFlow net.latest ≠ 0 →
      net.get_matrix = ⟨net.latest.savings_households / totalFlow net.latest,
        net.latest.consumption / totalFlow net.latest,
        net.latest.wages / totalFlow net.latest,
        net.latest.savings_firms / totalFlow net.latest⟩ ∧
      net.get_matrix.a11 + net.get_matrix.a12 + net.get_matrix.a21 + net.get_matrix.a22 = 1) ∧
    (totalFlow net.latest ≠ 0 → 0 ≤ net.latest.savings_households →
      0 ≤ net.latest.consumption → 0 ≤ net.latest.wages → 0 ≤ net.latest.savings_firms →
      (0 ≤ net.get_matrix.a11 ∧ net.get_matrix.a11 ≤ 1) ∧
      (0 ≤ net.get_matrix.a12 ∧ net.get_matrix.a12 ≤ 1) ∧
      (0 ≤ net.get_matrix.a21 ∧ net.get_matrix.a21 ≤ 1) ∧
      (0 ≤ net.get_matrix.a22 ∧ net.get_matrix.a22 ≤ 1)) := by
  have htot : totalFlow net.latest = net.latest.consumption + net.latest.wages +
      net.latest.savings_households + net.latest.savings_firms := rfl
  have hmat : totalFlow net.latest ≠ 0 →
      net.get_matrix = ⟨net.latest.savings_households / totalFlow net.latest,
        net.latest.consumption / totalFlow net.latest,
        net.latest.wages / totalFlow net.latest,
        net.latest.savings_firms / totalFlow net.latest⟩ := by
    intro h0
    rw [EconomyNetwork.get_matrix, if_neg (htot ▸ h0), htot]
  refine ⟨fun h0 => ?_, fun h0 => ⟨hmat h0, ?_⟩, fun h0 hsh hc hw hsf => ?_⟩
  · rw [EconomyNetwork.get_matrix, if_pos (htot ▸ h0)]
  · rw [hmat h0]
    dsimp only
    rw [show net.latest.savings_households / totalFlow net.latest +
        net.latest.consumption / totalFlow net.latest +
        net.latest.wages / totalFlow net.latest +
        net.latest.savings_firms / totalFlow net.latest =
        (net.latest.consumption + net.latest.wages + net.latest.savings_households +
          net.latest.savings_firms) / totalFlow net.latest from by ring]
    rw [div_eq_one_iff_eq h0, htot]
  · have hpos : 0 < totalFlow net.latest := by
      rw [htot] at h0 ⊢
      have : 0 ≤ net.latest.consumption + net.latest.wages +
          net.latest.savings_households + net.latest.savings_firms := by linarith
      exact lt_of_le_of_ne this (Ne.symm h0)
    rw [hmat h0]
    dsimp only
    refine ⟨⟨?_, ?_⟩, ⟨?_, ?_⟩, ⟨?_, ?_⟩, ⟨?_, ?_⟩⟩
    · exact div_nonneg hsh hpos.le
    · rw [div_le_one hpos, htot]
      linarith
    · exact div_nonneg hc hpos.le
    · rw [div_le_one hpos, htot]
      linarith
    · exact div_nonneg hw hpos.le
    · rw [div_le_one hpos, htot]
      linarith
    · exact div_nonneg hsf hpos.le
    · rw [div_le_one hpos, htot]
      linarith

/-- Witness for C3 on the degenerate engine state of `cNet` (total flow 2):
the matrix rows are the normalized savings/consumption/wages layout and the
entries sum to 1. -/
theorem get_matrix_spec_witness :
    totalFlow cNet.latest ≠ 0 ∧
    cNet.get_matrix.a11 + cNet.get_matrix.a12 + cNet.get_matrix.a21 + cNet.get_matrix.a22 = 1 := by
  have h0 : totalFlow cNet.latest ≠ 0 := by
    simp [totalFlow, cNet, EconomyNetwork.latest]
  exact ⟨h0, ((get_matrix_spec cNet).2.1 h0).2⟩

/-- Counterexample for C3: an engine constructed with negative household
savings is reachable, its total flow is nonzero, and the matrix entry a11 is
-1, outside [0, 1]. -/
theorem get_matrix_entry_negative :
    EconomyNetwork.init (1/10) 2 (0, 0) (1/2, 1/2) (-1, 2) 0 0 = Except.ok mNet ∧
    totalFlow mNet.latest = 1 ∧
    mNet.get_matrix.a11 = -1 ∧ ¬ (0 ≤ mNet.get_matrix.a11) := by
  refine ⟨?_, ?_, ?_, ?_⟩
  · simp [EconomyNetwork.init, mNet]
    norm_num
  · simp [totalFlow, mNet, EconomyNetwork.latest]
    norm_num
  · simp [EconomyNetwork.get_matrix, mNet, EconomyNetwork.latest]
    norm_num
  · simp [EconomyNetwork.get_matrix, mNet, EconomyNetwork.latest]
    norm_num
